import Mathlib

/-!
# Verification of the `configurations` repository core

Shallow embedding, in Lean 4, of the metadata-resolution and archive-writing
core of the `configurations` data-cataloging utility:

* `src/configurations/cli.py` — `extract_run_parameters` (regex extraction of
  pressure / temperature / config number from a run-directory name);
* `src/configurations/models.py` — the `State` enumeration and the
  `ConfigurationMeta` record (23 independently optional fields);
* `src/configurations/configuration.py` — `parse_xyz_header` (header-map
  resolution with field renaming, type coercion and per-field error
  recovery), sibling-file discovery (`Configuration._find_related_file`),
  the archive writer (`Configuration.save_to_hdf5`), the derived names
  (`Configuration.hdf5_filename`, `Configuration.s3_key`) and the attribute
  reader (`Configuration.read_hdf5_attributes`).

Python machine integers are modelled by `Int`; Python floats (which this
pipeline only ever parses and carries, never computes with) by `Rat` for
finite values, with explicit `±inf` / `NaN` markers where the distinction
drives control flow — `int(float('inf'))` raises an `OverflowError` that
the header parser's `except` clause does not catch; Python strings by
`String`; the heterogeneous scalar values appearing in an ASE `atoms.info`
map by the inductive `PyVal`; and an HDF5 file by its logical content: an
ordered list of root-level scalar attributes plus an ordered list of named
byte-sequence datasets.
-/

/-! ## Decimal digit runs (model of the regex capture `(\d+)` and `int()`) -/

/-- Numeric value of a run of decimal digit characters, as `int()` computes it
on the captured group of `(\d+)`. -/
def digitsToNat (ds : List Char) : Nat :=
  ds.foldl (fun a c => 10 * a + (c.toNat - 48)) 0

/-- `true` iff the list starts with a decimal digit.  Models the regex
requirement that the character right after the prefix be a digit. -/
def digitHead : List Char → Bool
  | [] => false
  | c :: _ => c.isDigit

/-- Model of `re.search(tag + r'(\d+)', s)` followed by `int(m.group(1))`:
scan left to right for the first position where `tag` occurs immediately
followed by a digit, and return the numeric value of the maximal digit run
after the tag; `none` when no such position exists. -/
def searchTag (tag : List Char) : List Char → Option Nat
  | [] => none
  | a :: rest =>
    if tag.isPrefixOf (a :: rest) && digitHead ((a :: rest).drop tag.length) then
      some (digitsToNat (((a :: rest).drop tag.length).takeWhile Char.isDigit))
    else
      searchTag tag rest

/-- The tag `P` of `re.search(r'P(\d+)', dir_name)`. -/
def pTag : List Char := ['P']

/-- The tag `T` of `re.search(r'T(\d+)', dir_name)`. -/
def tTag : List Char := ['T']

/-- The tag `config` of `re.search(r'config(\d+)', dir_name)`. -/
def configTag : List Char := ['c', 'o', 'n', 'f', 'i', 'g']

/-- Model of `pathlib.Path(s).name` for POSIX path strings: the last
path component, with empty and `.` components discarded. -/
def pathName (s : String) : String :=
  (((s.splitOn "/").filter (fun seg => !(seg == "") && !(seg == "."))).getLastD "")

/-- Embedding of `cli.extract_run_parameters` restricted to the directory
name (the source first takes `Path(run_dir).name`, then runs the three
regex searches and raises `ValueError` — the spec's `MalformedNameError` —
when any of them fails). -/
def extractFromName (dirName : List Char) : Except String (Nat × Nat × Nat) :=
  match searchTag pTag dirName, searchTag tTag dirName, searchTag configTag dirName with
  | some p, some t, some c => Except.ok (p, t, c)
  | _, _, _ => Except.error "Invalid directory format"

/-- Embedding of `cli.extract_run_parameters`: take the last path component
of `run_dir`, then extract the three prefixed integers. -/
def extract_run_parameters (runDir : String) : Except String (Nat × Nat × Nat) :=
  extractFromName (pathName runDir).toList

/-! Declarative counterparts used to state correctness of the search. -/

/-- The tag occurs at index `i` of `s`, immediately followed by a digit. -/
def tagAt (tag s : List Char) (i : Nat) : Prop :=
  tag.isPrefixOf (s.drop i) = true ∧ digitHead (s.drop (i + tag.length)) = true

/-- Numeric value of the maximal digit run right after the tag occurrence
at index `i`. -/
def tagValueAt (tag s : List Char) (i : Nat) : Nat :=
  digitsToNat ((s.drop (i + tag.length)).takeWhile Char.isDigit)

/-- `v` is the integer following the leftmost occurrence of `tag` that is
followed by a digit: the declarative reading of "extract the first integer
following the prefix using leftmost match". -/
def LeftmostTagValue (tag s : List Char) (v : Nat) : Prop :=
  ∃ i, tagAt tag s i ∧ (∀ j, j < i → ¬ tagAt tag s j) ∧ tagValueAt tag s i = v

/-! Correctness of `searchTag` with respect to the declarative reading. -/

theorem tagAt_nil (tag : List Char) (htag : tag ≠ []) (i : Nat) :
    ¬ tagAt tag ([] : List Char) i := by
  intro h
  rcases h with ⟨h1, _⟩
  cases tag with
  | nil => exact htag rfl
  | cons a t => simp [List.isPrefixOf] at h1

theorem tagAt_cons_succ (tag : List Char) (a : Char) (s : List Char) (i : Nat) :
    tagAt tag (a :: s) (i + 1) ↔ tagAt tag s i := by
  unfold tagAt
  have h1 : (a :: s).drop (i + 1) = s.drop i := by simp
  have h2 : (a :: s).drop (i + 1 + tag.length) = s.drop (i + tag.length) := by
    have : i + 1 + tag.length = (i + tag.length) + 1 := by omega
    rw [this]
    simp
  rw [h1, h2]

theorem tagAt_cons_zero (tag : List Char) (a : Char) (s : List Char) :
    tagAt tag (a :: s) 0 ↔
      (tag.isPrefixOf (a :: s) && digitHead ((a :: s).drop tag.length)) = true := by
  unfold tagAt
  simp [Bool.and_eq_true]

theorem tagValueAt_cons_succ (tag : List Char) (a : Char) (s : List Char) (i : Nat) :
    tagValueAt tag (a :: s) (i + 1) = tagValueAt tag s i := by
  unfold tagValueAt
  have h2 : (a :: s).drop (i + 1 + tag.length) = s.drop (i + tag.length) := by
    have : i + 1 + tag.length = (i + tag.length) + 1 := by omega
    rw [this]
    simp
  rw [h2]

theorem searchTag_eq_some_iff (tag : List Char) (htag : tag ≠ []) (s : List Char) (v : Nat) :
    searchTag tag s = some v ↔ LeftmostTagValue tag s v := by
  induction s with
  | nil =>
    simp only [searchTag]
    constructor
    · intro h; exact absurd h (by simp)
    · rintro ⟨i, hi, -, -⟩
      exact absurd hi (tagAt_nil tag htag i)
  | cons a rest ih =>
    by_cases hg : (tag.isPrefixOf (a :: rest) && digitHead ((a :: rest).drop tag.length)) = true
    · have hz : tagAt tag (a :: rest) 0 := (tagAt_cons_zero tag a rest).mpr hg
      constructor
      · intro h
        simp only [searchTag, hg, if_true] at h
        refine ⟨0, hz, fun j hj => absurd hj (by omega), ?_⟩
        simpa [tagValueAt] using Option.some.inj h
      · rintro ⟨i, hi, hmin, hval⟩
        have hi0 : i = 0 := by
          by_contra hne
          exact hmin 0 (by omega) hz
        subst hi0
        simp only [searchTag, hg, if_true]
        simpa [tagValueAt] using congrArg some hval
    · have hz : ¬ tagAt tag (a :: rest) 0 := fun h => hg ((tagAt_cons_zero tag a rest).mp h)
      have hstep : searchTag tag (a :: rest) = searchTag tag rest := by
        simp [searchTag, hg]
      rw [hstep, ih]
      constructor
      · rintro ⟨i, hi, hmin, hval⟩
        refine ⟨i + 1, (tagAt_cons_succ tag a rest i).mpr hi, ?_, ?_⟩
        · intro j hj
          cases j with
          | zero => exact hz
          | succ j' =>
            intro hj'
            exact hmin j' (by omega) ((tagAt_cons_succ tag a rest j').mp hj')
        · rw [tagValueAt_cons_succ]; exact hval
      · rintro ⟨i, hi, hmin, hval⟩
        cases i with
        | zero => exact absurd hi hz
        | succ i' =>
          refine ⟨i', (tagAt_cons_succ tag a rest i').mp hi, ?_, ?_⟩
          · intro j hj
            intro hj'
            exact hmin (j + 1) (by omega) ((tagAt_cons_succ tag a rest j).mpr hj')
          · rw [tagValueAt_cons_succ] at hval; exact hval

theorem searchTag_eq_none_iff (tag : List Char) (htag : tag ≠ []) (s : List Char) :
    searchTag tag s = none ↔ ∀ i, ¬ tagAt tag s i := by
  induction s with
  | nil =>
    constructor
    · intro _ i; exact tagAt_nil tag htag i
    · intro _; rfl
  | cons a rest ih =>
    by_cases hg : (tag.isPrefixOf (a :: rest) && digitHead ((a :: rest).drop tag.length)) = true
    · have hz : tagAt tag (a :: rest) 0 := (tagAt_cons_zero tag a rest).mpr hg
      simp only [searchTag, hg, if_true]
      constructor
      · intro h; exact absurd h (by simp)
      · intro h; exact absurd hz (h 0)
    · have hz : ¬ tagAt tag (a :: rest) 0 := fun h => hg ((tagAt_cons_zero tag a rest).mp h)
      have hstep : searchTag tag (a :: rest) = searchTag tag rest := by
        simp [searchTag, hg]
      rw [hstep, ih]
      constructor
      · intro h i
        cases i with
        | zero => exact hz
        | succ i' =>
          intro hi'
          exact h i' ((tagAt_cons_succ tag a rest i').mp hi')
      · intro h i hi
        exact h (i + 1) ((tagAt_cons_succ tag a rest i).mpr hi)

/-! ## Claim C1 — correctness of `extract_run_parameters` -/

/-- C1: for every run-directory name, `extract_run_parameters` succeeds with
`(p, t, c)` exactly when `p`, `t`, `c` are the integers following the leftmost
digit-followed occurrences of the case-sensitive prefixes `P`, `T`, `config`
in the final path component, and it fails (the `ValueError` modelling
`MalformedNameError`) exactly when one of the three prefixes is nowhere
followed by an integer. -/
theorem extract_run_parameters_correct (s : String) (p t c : Nat) :
    (extract_run_parameters s = Except.ok (p, t, c) ↔
      LeftmostTagValue pTag (pathName s).toList p ∧
      LeftmostTagValue tTag (pathName s).toList t ∧
      LeftmostTagValue configTag (pathName s).toList c) ∧
    ((∃ e, extract_run_parameters s = Except.error e) ↔
      ((∀ i, ¬ tagAt pTag (pathName s).toList i) ∨
       (∀ i, ¬ tagAt tTag (pathName s).toList i) ∨
       (∀ i, ¬ tagAt configTag (pathName s).toList i))) := by
  have hp : pTag ≠ [] := by decide
  have ht : tTag ≠ [] := by decide
  have hc : configTag ≠ [] := by decide
  have key : ∀ l : List Char,
      (extractFromName l = Except.ok (p, t, c) ↔
        LeftmostTagValue pTag l p ∧ LeftmostTagValue tTag l t ∧ LeftmostTagValue configTag l c) ∧
      ((∃ e, extractFromName l = Except.error e) ↔
        ((∀ i, ¬ tagAt pTag l i) ∨ (∀ i, ¬ tagAt tTag l i) ∨ (∀ i, ¬ tagAt configTag l i))) := by
    intro l
    rw [← searchTag_eq_some_iff pTag hp l p, ← searchTag_eq_some_iff tTag ht l t,
        ← searchTag_eq_some_iff configTag hc l c,
        ← searchTag_eq_none_iff pTag hp l, ← searchTag_eq_none_iff tTag ht l,
        ← searchTag_eq_none_iff configTag hc l]
    rcases h1 : searchTag pTag l with _ | vp <;>
      rcases h2 : searchTag tTag l with _ | vt <;>
        rcases h3 : searchTag configTag l with _ | vc <;>
          simp [extractFromName, h1, h2, h3, eq_comm]
  exact key (pathName s).toList

/-! ## Claim C10 — no relative order is enforced on the three prefixes -/

theorem isPrefixOf_append_self (t rest : List Char) : t.isPrefixOf (t ++ rest) = true := by
  induction t with
  | nil => simp [List.isPrefixOf]
  | cons a t' ih => simp [List.isPrefixOf, ih]

theorem searchTag_append_match (tag : List Char) (htag : tag ≠ []) (ys : List Char)
    (hys : digitHead ys = true) :
    searchTag tag (tag ++ ys) = some (digitsToNat (ys.takeWhile Char.isDigit)) := by
  cases tag with
  | nil => exact absurd rfl htag
  | cons a tl =>
    have hstep : searchTag (a :: tl) ((a :: tl) ++ ys) =
        if (a :: tl).isPrefixOf ((a :: tl) ++ ys) &&
            digitHead (((a :: tl) ++ ys).drop (a :: tl).length) then
          some (digitsToNat ((((a :: tl) ++ ys).drop (a :: tl).length).takeWhile Char.isDigit))
        else searchTag (a :: tl) (tl ++ ys) := rfl
    rw [hstep, List.drop_left, isPrefixOf_append_self, hys]
    rfl

theorem searchTag_append_skip (h : Char) (tl xs ys : List Char) (hx : h ∉ xs) :
    searchTag (h :: tl) (xs ++ ys) = searchTag (h :: tl) ys := by
  induction xs with
  | nil => rfl
  | cons a xs' ih =>
    have ha : a ≠ h := fun hh => hx (hh ▸ List.mem_cons_self a xs')
    have hne : (h == a) = false := beq_eq_false_iff_ne.mpr (fun hh => ha hh.symm)
    have hguard : ((h :: tl).isPrefixOf (a :: (xs' ++ ys)) &&
        digitHead ((a :: (xs' ++ ys)).drop (h :: tl).length)) = false := by
      simp [List.isPrefixOf, hne]
    have hstep : searchTag (h :: tl) ((a :: xs') ++ ys) =
        if (h :: tl).isPrefixOf (a :: (xs' ++ ys)) &&
            digitHead ((a :: (xs' ++ ys)).drop (h :: tl).length) then
          some (digitsToNat (((a :: (xs' ++ ys)).drop (h :: tl).length).takeWhile Char.isDigit))
        else searchTag (h :: tl) (xs' ++ ys) := rfl
    rw [hstep, hguard]
    simpa using ih (fun hm => hx (List.mem_cons_of_mem a hm))

theorem not_mem_digits (ch : Char) (hch : ch.isDigit = false) (ds : List Char)
    (hds : ∀ x ∈ ds, x.isDigit = true) : ch ∉ ds := by
  intro hm
  have h := hds ch hm
  rw [hch] at h
  exact Bool.false_ne_true h

theorem takeWhile_digits_append (ds : List Char) (hds : ∀ x ∈ ds, x.isDigit = true)
    (e : Char) (he : e.isDigit = false) (rest : List Char) :
    (ds ++ e :: rest).takeWhile Char.isDigit = ds := by
  induction ds with
  | nil => simp [List.takeWhile_cons, he]
  | cons a t ih =>
    have ha : a.isDigit = true := hds a (List.mem_cons_self a t)
    have ht : ∀ x ∈ t, x.isDigit = true := fun x hx => hds x (List.mem_cons_of_mem a hx)
    simp [List.takeWhile_cons, ha, ih ht]

theorem takeWhile_digits_all (ds : List Char) (hds : ∀ x ∈ ds, x.isDigit = true) :
    ds.takeWhile Char.isDigit = ds :=
  List.takeWhile_eq_self_iff.mpr hds

theorem digitHead_append (ds : List Char) (h0 : ds ≠ []) (hds : ∀ x ∈ ds, x.isDigit = true)
    (rest : List Char) : digitHead (ds ++ rest) = true := by
  cases ds with
  | nil => exact absurd rfl h0
  | cons a t => exact hds a (List.mem_cons_self a t)

theorem digitHead_digits (ds : List Char) (h0 : ds ≠ []) (hds : ∀ x ∈ ds, x.isDigit = true) :
    digitHead ds = true := by
  cases ds with
  | nil => exact absurd rfl h0
  | cons a t => exact hds a (List.mem_cons_self a t)

/-- C10: `extract_run_parameters` does not enforce the relative order of the
`P`, `T`, `config` prefixes: a name built from the three prefixed digit runs
in canonical order and the same name with the prefixes permuted as
`config…T…P…` both succeed with the same
`(pressure, temperature, config_number)` triple. -/
theorem extract_order_independent (dp dt dc : List Char)
    (hp0 : dp ≠ []) (hpd : ∀ x ∈ dp, x.isDigit = true)
    (ht0 : dt ≠ []) (htd : ∀ x ∈ dt, x.isDigit = true)
    (hc0 : dc ≠ []) (hcd : ∀ x ∈ dc, x.isDigit = true) :
    extractFromName (pTag ++ (dp ++ (tTag ++ (dt ++ (configTag ++ dc))))) =
      Except.ok (digitsToNat dp, digitsToNat dt, digitsToNat dc) ∧
    extractFromName (configTag ++ (dc ++ (tTag ++ (dt ++ (pTag ++ dp))))) =
      Except.ok (digitsToNat dp, digitsToNat dt, digitsToNat dc) := by
  have hdP : ('P' : Char).isDigit = false := by decide
  have hdT : ('T' : Char).isDigit = false := by decide
  have hdc : ('c' : Char).isDigit = false := by decide
  simp only [pTag, tTag, configTag]
  constructor
  · -- canonical order P…T…config…
    have e1 : searchTag ['P'] (['P'] ++ (dp ++ (['T'] ++ (dt ++ (['c', 'o', 'n', 'f', 'i', 'g'] ++ dc))))) =
        some (digitsToNat dp) := by
      rw [searchTag_append_match ['P'] (by decide) _ (digitHead_append dp hp0 hpd _)]
      have hv : (dp ++ (['T'] ++ (dt ++ (['c', 'o', 'n', 'f', 'i', 'g'] ++ dc)))).takeWhile
          Char.isDigit = dp :=
        takeWhile_digits_append dp hpd 'T' hdT _
      rw [hv]
    have e2 : searchTag ['T'] (['P'] ++ (dp ++ (['T'] ++ (dt ++ (['c', 'o', 'n', 'f', 'i', 'g'] ++ dc))))) =
        some (digitsToNat dt) := by
      have hassoc : ['P'] ++ (dp ++ (['T'] ++ (dt ++ (['c', 'o', 'n', 'f', 'i', 'g'] ++ dc)))) =
          (['P'] ++ dp) ++ (['T'] ++ (dt ++ (['c', 'o', 'n', 'f', 'i', 'g'] ++ dc))) := by
        simp [List.append_assoc]
      have hmem : ('T' : Char) ∉ ['P'] ++ dp := by
        intro hm
        rcases List.mem_append.mp hm with hm1 | hm2
        · exact absurd (List.mem_singleton.mp hm1) (by decide)
        · exact not_mem_digits 'T' hdT dp hpd hm2
      rw [hassoc, searchTag_append_skip 'T' [] (['P'] ++ dp) _ hmem,
        searchTag_append_match ['T'] (by decide) _ (digitHead_append dt ht0 htd _)]
      have hv : (dt ++ (['c', 'o', 'n', 'f', 'i', 'g'] ++ dc)).takeWhile Char.isDigit = dt :=
        takeWhile_digits_append dt htd 'c' hdc _
      rw [hv]
    have e3 : searchTag ['c', 'o', 'n', 'f', 'i', 'g']
        (['P'] ++ (dp ++ (['T'] ++ (dt ++ (['c', 'o', 'n', 'f', 'i', 'g'] ++ dc))))) =
        some (digitsToNat dc) := by
      have hassoc : ['P'] ++ (dp ++ (['T'] ++ (dt ++ (['c', 'o', 'n', 'f', 'i', 'g'] ++ dc)))) =
          (['P'] ++ dp ++ ['T'] ++ dt) ++ (['c', 'o', 'n', 'f', 'i', 'g'] ++ dc) := by
        simp [List.append_assoc]
      have hmem : ('c' : Char) ∉ ['P'] ++ dp ++ ['T'] ++ dt := by
        intro hm
        simp only [List.mem_append] at hm
        rcases hm with ((hm1 | hm2) | hm3) | hm4
        · exact absurd (List.mem_singleton.mp hm1) (by decide)
        · exact not_mem_digits 'c' hdc dp hpd hm2
        · exact absurd (List.mem_singleton.mp hm3) (by decide)
        · exact not_mem_digits 'c' hdc dt htd hm4
      rw [hassoc, searchTag_append_skip 'c' ['o', 'n', 'f', 'i', 'g'] _ _ hmem,
        searchTag_append_match ['c', 'o', 'n', 'f', 'i', 'g'] (by decide) _
          (digitHead_digits dc hc0 hcd)]
      rw [takeWhile_digits_all dc hcd]
    unfold extractFromName
    simp only [pTag, tTag, configTag]
    rw [e1, e2, e3]
  · -- permuted order config…T…P…
    have e1 : searchTag ['c', 'o', 'n', 'f', 'i', 'g']
        (['c', 'o', 'n', 'f', 'i', 'g'] ++ (dc ++ (['T'] ++ (dt ++ (['P'] ++ dp))))) =
        some (digitsToNat dc) := by
      rw [searchTag_append_match ['c', 'o', 'n', 'f', 'i', 'g'] (by decide) _
        (digitHead_append dc hc0 hcd _)]
      have hv : (dc ++ (['T'] ++ (dt ++ (['P'] ++ dp)))).takeWhile Char.isDigit = dc :=
        takeWhile_digits_append dc hcd 'T' hdT _
      rw [hv]
    have e2 : searchTag ['T']
        (['c', 'o', 'n', 'f', 'i', 'g'] ++ (dc ++ (['T'] ++ (dt ++ (['P'] ++ dp))))) =
        some (digitsToNat dt) := by
      have hassoc : ['c', 'o', 'n', 'f', 'i', 'g'] ++ (dc ++ (['T'] ++ (dt ++ (['P'] ++ dp)))) =
          (['c', 'o', 'n', 'f', 'i', 'g'] ++ dc) ++ (['T'] ++ (dt ++ (['P'] ++ dp))) := by
        simp [List.append_assoc]
      have hmem : ('T' : Char) ∉ ['c', 'o', 'n', 'f', 'i', 'g'] ++ dc := by
        intro hm
        rcases List.mem_append.mp hm with hm1 | hm2
        · revert hm1; decide
        · exact not_mem_digits 'T' hdT dc hcd hm2
      rw [hassoc, searchTag_append_skip 'T' [] _ _ hmem,
        searchTag_append_match ['T'] (by decide) _ (digitHead_append dt ht0 htd _)]
      have hv : (dt ++ (['P'] ++ dp)).takeWhile Char.isDigit = dt :=
        takeWhile_digits_append dt htd 'P' hdP _
      rw [hv]
    have e3 : searchTag ['P']
        (['c', 'o', 'n', 'f', 'i', 'g'] ++ (dc ++ (['T'] ++ (dt ++ (['P'] ++ dp))))) =
        some (digitsToNat dp) := by
      have hassoc : ['c', 'o', 'n', 'f', 'i', 'g'] ++ (dc ++ (['T'] ++ (dt ++ (['P'] ++ dp)))) =
          (['c', 'o', 'n', 'f', 'i', 'g'] ++ dc ++ ['T'] ++ dt) ++ (['P'] ++ dp) := by
        simp [List.append_assoc]
      have hmem : ('P' : Char) ∉ ['c', 'o', 'n', 'f', 'i', 'g'] ++ dc ++ ['T'] ++ dt := by
        intro hm
        simp only [List.mem_append] at hm
        rcases hm with ((hm1 | hm2) | hm3) | hm4
        · revert hm1; decide
        · exact not_mem_digits 'P' hdP dc hcd hm2
        · exact absurd (List.mem_singleton.mp hm3) (by decide)
        · exact not_mem_digits 'P' hdP dt htd hm4
      rw [hassoc, searchTag_append_skip 'P' [] _ _ hmem,
        searchTag_append_match ['P'] (by decide) _ (digitHead_digits dp hp0 hpd)]
      rw [takeWhile_digits_all dp hpd]
    unfold extractFromName
    simp only [pTag, tTag, configTag]
    rw [e1, e2, e3]

/-- Witness for C10 at the claim's example: `"config60T2000P150"` yields the
same triple (pressure 150, temperature 2000, config number 60) as the
canonically ordered `"P150T2000config60"`. -/
theorem extract_order_independent_witness :
    extractFromName (pTag ++ (['1', '5', '0'] ++ (tTag ++ (['2', '0', '0', '0'] ++
        (configTag ++ ['6', '0']))))) = Except.ok (150, 2000, 60) ∧
    extractFromName (configTag ++ (['6', '0'] ++ (tTag ++ (['2', '0', '0', '0'] ++
        (pTag ++ ['1', '5', '0']))))) = Except.ok (150, 2000, 60) :=
  extract_order_independent ['1', '5', '0'] ['2', '0', '0', '0'] ['6', '0']
    (by decide) (by decide) (by decide) (by decide) (by decide) (by decide)

/-! ## Data model — `models.py` -/

/-- Embedding of `models.State`: the `(str, Enum)` with variants
`solid`, `liquid`, `ambiguous`. -/
inductive State where
  | SOLID
  | LIQUID
  | AMBIGUOUS
deriving DecidableEq, Repr

/-- The `.value` string tag of each `State` member. -/
def stateValue : State → String
  | State.SOLID => "solid"
  | State.LIQUID => "liquid"
  | State.AMBIGUOUS => "ambiguous"

/-- Embedding of `models.ConfigurationMeta`: a pydantic record of 23
independently optional fields.  Python `int` fields are `Option Int`,
`float` fields `Option Rat` (this pipeline only parses and carries floats,
never computes with them), `str` fields `Option String`, and `state` an
`Option State`.  Every field defaults to `none` (absent). -/
structure ConfigurationMeta where
  config_number : Option Int := none
  uuid : Option String := none
  pressure : Option Int := none
  temperature : Option Int := none
  state : Option State := none
  rs : Option Rat := none
  molecular_percentage : Option Rat := none
  MD_type : Option String := none
  method : Option String := none
  code : Option String := none
  modelname : Option String := none
  simulation_type : Option String := none
  timestep : Option Int := none
  config_gen_date : Option String := none
  author : Option String := none
  qmc_machine : Option String := none
  QMC_run_date : Option String := none
  QMC_quality : Option Int := none
  energy : Option Rat := none
  electron_kinetic_energy : Option Rat := none
  potential_energy : Option Rat := none
  fsc_potential_energy : Option Rat := none
  fsc_kinetic_energy : Option Rat := none
deriving DecidableEq, Repr

/-! ## Heterogeneous header values — the ASE `atoms.info` map -/

/-- A scalar value as it appears in the `atoms.info` map returned by the
external structure-file reader: a Python string, int, float or `None`.
A Python float is `vfloat q` when finite, `vinf neg` when `±float('inf')`
(which ASE produces from header text such as `pressure=1e999`), and `vnan`
when `float('nan')`. -/
inductive PyVal where
  | vstr (s : String)
  | vint (n : Int)
  | vfloat (q : Rat)
  | vinf (neg : Bool)
  | vnan
  | vnone
deriving DecidableEq, Repr

/-- The Python exception classes arising in the coercion code paths of
`parse_xyz_header`. -/
inductive PyErr where
  | valueError
  | typeError
  | attributeError
  | overflowError
deriving DecidableEq, Repr

/-- The `except (ValueError, TypeError, AttributeError)` clause of
`parse_xyz_header` (configuration.py line 81): the exception kinds it
catches.  `OverflowError` is not among them. -/
def caughtByExcept : PyErr → Bool
  | PyErr.valueError => true
  | PyErr.typeError => true
  | PyErr.attributeError => true
  | PyErr.overflowError => false

/-- A Python float value: finite (as `Rat`), `±inf`, or `NaN`. -/
inductive PyFloatVal where
  | finite (q : Rat)
  | infinite (neg : Bool)
  | nan
deriving DecidableEq, Repr

/-- A typed value stored in the intermediate `meta_dict` before the
`ConfigurationMeta(**meta_dict)` construction. -/
inductive MetaVal where
  | mInt (n : Int)
  | mFloat (v : PyFloatVal)
  | mStr (s : String)
  | mState (st : State)
deriving DecidableEq, Repr

/-- Model of Python `int(str)` on a header string: optional surrounding
whitespace, an optional sign, then one or more decimal digits (the digit
grouping and non-decimal bases accepted by CPython are out of scope for the
header values this pipeline meets).  `none` models the `ValueError`. -/
def parseIntString (s : String) : Option Int :=
  let l := s.toList.dropWhile (fun ch => ch.isWhitespace)
  let l := (l.reverse.dropWhile (fun ch => ch.isWhitespace)).reverse
  let core :=
    match l with
    | '-' :: rest => some (true, rest)
    | '+' :: rest => some (false, rest)
    | rest => some (false, rest)
  match core with
  | some (neg, ds) =>
    if ds ≠ [] ∧ ∀ ch ∈ ds, ch.isDigit = true then
      some (if neg then -(digitsToNat ds : Int) else (digitsToNat ds : Int))
    else
      none
  | none => none

/-- Fractional value of a digit run: `ds` read as the digits right after the
decimal point. -/
def fracOfDigits (ds : List Char) : Rat :=
  (digitsToNat ds : Rat) / ((10 : Rat) ^ ds.length)

/-- Model of Python `float(str)`: optional surrounding whitespace, optional
sign, digits with an optional decimal point, at least one digit overall
(exponents, `inf` and `nan` are out of scope for the header values this
pipeline meets).  `none` models the `ValueError`. -/
def parseFloatString (s : String) : Option Rat :=
  let l := s.toList.dropWhile (fun ch => ch.isWhitespace)
  let l := (l.reverse.dropWhile (fun ch => ch.isWhitespace)).reverse
  let (neg, body) :=
    match l with
    | '-' :: rest => (true, rest)
    | '+' :: rest => (false, rest)
    | rest => (false, rest)
  let intPart := body.takeWhile Char.isDigit
  let rest := body.drop intPart.length
  let val? :=
    match rest with
    | [] => if intPart ≠ [] then some ((digitsToNat intPart : Rat)) else none
    | '.' :: fracPart =>
      if (∀ ch ∈ fracPart, ch.isDigit = true) ∧ (intPart ≠ [] ∨ fracPart ≠ []) then
        some ((digitsToNat intPart : Rat) + fracOfDigits fracPart)
      else none
    | _ => none
  val?.map (fun q => if neg then -q else q)

/-- Model of Python `int(value)` on a heterogeneous header value, with the
exception it raises on failure: ints pass through; finite floats truncate
toward zero, but `int(float('inf'))` raises `OverflowError` and
`int(float('nan'))` raises `ValueError`; strings parse as decimal integers
or raise `ValueError`; `int(None)` raises `TypeError`. -/
def pyInt : PyVal → Except PyErr Int
  | PyVal.vint n => Except.ok n
  | PyVal.vfloat q =>
    Except.ok (if q < 0 then -(Int.ofNat (-q).floor.toNat) else Int.ofNat q.floor.toNat)
  | PyVal.vinf _ => Except.error PyErr.overflowError
  | PyVal.vnan => Except.error PyErr.valueError
  | PyVal.vstr s =>
    match parseIntString s with
    | some n => Except.ok n
    | none => Except.error PyErr.valueError
  | PyVal.vnone => Except.error PyErr.typeError

/-- Model of Python `float(value)`: ints widen, floats — finite or not —
pass through unchanged, strings parse as decimal floats or raise
`ValueError`; `float(None)` raises `TypeError`. -/
def pyFloat : PyVal → Except PyErr PyFloatVal
  | PyVal.vint n => Except.ok (PyFloatVal.finite (n : Rat))
  | PyVal.vfloat q => Except.ok (PyFloatVal.finite q)
  | PyVal.vinf neg => Except.ok (PyFloatVal.infinite neg)
  | PyVal.vnan => Except.ok PyFloatVal.nan
  | PyVal.vstr s =>
    match parseFloatString s with
    | some q => Except.ok (PyFloatVal.finite q)
    | none => Except.error PyErr.valueError
  | PyVal.vnone => Except.error PyErr.typeError

/-- Model of Python `str(value)` for the scalar values at hand (total). -/
def pyStr : PyVal → String
  | PyVal.vstr s => s
  | PyVal.vint n => toString n
  | PyVal.vfloat q => toString q
  | PyVal.vinf neg => if neg then "-inf" else "inf"
  | PyVal.vnan => "nan"
  | PyVal.vnone => "None"

/-! ## `parse_xyz_header` — `configuration.py` lines 10–86 -/

/-- Model of Python `str.lower()` (ASCII case folding, which covers the phase
strings this pipeline meets). -/
def pyLower (s : String) : String := String.mk (s.toList.map Char.toLower)

/-- Embedding of the `field_mapping` dict of `parse_xyz_header`, verbatim. -/
def field_mapping : List (String × String) :=
  [("config", "config_number"),
   ("phase", "state"),
   ("QMC-run-date", "QMC_run_date"),
   ("QMC-quality", "QMC_quality"),
   ("simulation-type", "simulation_type"),
   ("fsc_dv_ev", "fsc_potential_energy"),
   ("fsc_dt_ev", "fsc_kinetic_energy")]

/-- The canonical field names of `ConfigurationMeta.model_fields`, in
declaration order. -/
def configMetaFieldNames : List String :=
  ["config_number", "uuid", "pressure", "temperature", "state", "rs",
   "molecular_percentage", "MD_type", "method", "code", "modelname",
   "simulation_type", "timestep", "config_gen_date", "author", "qmc_machine",
   "QMC_run_date", "QMC_quality", "energy", "electron_kinetic_energy",
   "potential_energy", "fsc_potential_energy", "fsc_kinetic_energy"]

/-- The integer-typed field names of the coercion branch of
`parse_xyz_header`, verbatim. -/
def intFieldNames : List String :=
  ["config_number", "pressure", "temperature", "timestep", "QMC_quality"]

/-- The float-typed field names of the coercion branch of
`parse_xyz_header`, verbatim. -/
def floatFieldNames : List String :=
  ["rs", "molecular_percentage", "energy", "electron_kinetic_energy",
   "potential_energy", "fsc_potential_energy", "fsc_kinetic_energy"]

/-- Embedding of the `state` branch of `parse_xyz_header` (configuration.py
lines 57–70): a string is lowercased and matched against `solid`, `liquid`,
`ambiguous`; any other string and every non-string value map to `none`
(the absent state).  Total: never raises. -/
def coerceState : PyVal → Option State
  | PyVal.vstr s =>
    if pyLower s = "solid" then some State.SOLID
    else if pyLower s = "liquid" then some State.LIQUID
    else if pyLower s = "ambiguous" then some State.AMBIGUOUS
    else none
  | _ => none

/-- The `try` block body of `parse_xyz_header` for a canonical key:
`Except.ok ov` means `meta_dict[meta_key] = ov` is assigned (with `ok none`
modelling an explicit `None` assignment); `Except.error e` means the
coercion raised the exception `e` — whether `e` is then swallowed is decided
by the `except` clause in `processEntry`, not here. -/
def coerceEntry (metaKey : String) (v : PyVal) : Except PyErr (Option MetaVal) :=
  if metaKey = "state" then
    Except.ok ((coerceState v).map MetaVal.mState)
  else if metaKey ∈ intFieldNames then
    match v with
    | PyVal.vnone => Except.ok none
    | _ => (pyInt v).map (fun n => some (MetaVal.mInt n))
  else if metaKey ∈ floatFieldNames then
    match v with
    | PyVal.vnone => Except.ok none
    | _ => (pyFloat v).map (fun fv => some (MetaVal.mFloat fv))
  else
    match v with
    | PyVal.vnone => Except.ok none
    | _ => Except.ok (some (MetaVal.mStr (pyStr v)))

/-- Python dict assignment `d[k] = v`: update in place if the key is
present, append otherwise. -/
def insertAssoc (d : List (String × Option MetaVal)) (k : String) (v : Option MetaVal) :
    List (String × Option MetaVal) :=
  match d with
  | [] => [(k, v)]
  | (k', v') :: rest =>
    if k' = k then (k, v) :: rest else (k', v') :: insertAssoc rest k v

/-- One iteration of the `for info_key, info_value in info.items()` loop of
`parse_xyz_header`: rename via `field_mapping`, skip keys without a
canonical counterpart, run the `try` block's coercion, then apply the
`except (ValueError, TypeError, AttributeError)` clause — a caught
exception drops the key (`continue`), any other exception (notably
`OverflowError` from `int(float('inf'))`) propagates and aborts the whole
record. -/
def processEntry (d : List (String × Option MetaVal)) (kv : String × PyVal) :
    Except PyErr (List (String × Option MetaVal)) :=
  let metaKey := (field_mapping.lookup kv.1).getD kv.1
  if metaKey ∈ configMetaFieldNames then
    match coerceEntry metaKey kv.2 with
    | Except.ok ov => Except.ok (insertAssoc d metaKey ov)
    | Except.error e =>
      if caughtByExcept e then Except.ok d else Except.error e
  else Except.ok d

/-- Typed field extraction used by `mkMeta` below. -/
def getIntField (d : List (String × Option MetaVal)) (name : String) : Option Int :=
  match d.lookup name with
  | some (some (MetaVal.mInt n)) => some n
  | _ => none

/-- Typed field extraction used by `mkMeta` below.  Only finite float
values are representable in the `Rat`-valued record model; a non-finite
float surviving to `meta_dict` (pydantic would store it) lies outside the
record model and reads as absent here — no claim rests on that corner. -/
def getFloatField (d : List (String × Option MetaVal)) (name : String) : Option Rat :=
  match d.lookup name with
  | some (some (MetaVal.mFloat (PyFloatVal.finite q))) => some q
  | _ => none

/-- Typed field extraction used by `mkMeta` below. -/
def getStrField (d : List (String × Option MetaVal)) (name : String) : Option String :=
  match d.lookup name with
  | some (some (MetaVal.mStr s)) => some s
  | _ => none

/-- Typed field extraction used by `mkMeta` below. -/
def getStateField (d : List (String × Option MetaVal)) (name : String) : Option State :=
  match d.lookup name with
  | some (some (MetaVal.mState st)) => some st
  | _ => none

/-- Model of `ConfigurationMeta(**meta_dict)`: each declared field is read
from the surviving dictionary; a missing key (and the explicit `None`
assignments) leave the field absent. -/
def mkMeta (d : List (String × Option MetaVal)) : ConfigurationMeta where
  config_number := getIntField d "config_number"
  uuid := getStrField d "uuid"
  pressure := getIntField d "pressure"
  temperature := getIntField d "temperature"
  state := getStateField d "state"
  rs := getFloatField d "rs"
  molecular_percentage := getFloatField d "molecular_percentage"
  MD_type := getStrField d "MD_type"
  method := getStrField d "method"
  code := getStrField d "code"
  modelname := getStrField d "modelname"
  simulation_type := getStrField d "simulation_type"
  timestep := getIntField d "timestep"
  config_gen_date := getStrField d "config_gen_date"
  author := getStrField d "author"
  qmc_machine := getStrField d "qmc_machine"
  QMC_run_date := getStrField d "QMC_run_date"
  QMC_quality := getIntField d "QMC_quality"
  energy := getFloatField d "energy"
  electron_kinetic_energy := getFloatField d "electron_kinetic_energy"
  potential_energy := getFloatField d "potential_energy"
  fsc_potential_energy := getFloatField d "fsc_potential_energy"
  fsc_kinetic_energy := getFloatField d "fsc_kinetic_energy"

/-- The header-entry loop of `parse_xyz_header`: a left fold that exits
early when an iteration raises an exception the `except` clause does not
catch. -/
def foldParse : List (String × PyVal) → List (String × Option MetaVal) →
    Except PyErr (List (String × Option MetaVal))
  | [], d => Except.ok d
  | kv :: rest, d =>
    match processEntry d kv with
    | Except.ok d' => foldParse rest d'
    | Except.error e => Except.error e

/-- Embedding of `configuration.parse_xyz_header` from the `atoms.info` map
onward (reading the XYZ file into that map is delegated to ASE, the
external structure-file reader): fold the renaming/coercion loop over the
header entries, then construct the `ConfigurationMeta`.  The result is an
error exactly when an entry raises an exception the
`except (ValueError, TypeError, AttributeError)` clause does not catch —
notably `OverflowError` from `int()` on an infinite float. -/
def parse_xyz_header (info : List (String × PyVal)) : Except PyErr ConfigurationMeta :=
  (foldParse info []).map mkMeta

/-! ## Claim C2 — unknown keys and failed coercions -/

/-- C2 (code bug): the swallow policy has a hole.  An unrecognized key is
dropped, and a key whose coercion raises one of the caught kinds is dropped
(here: `pressure` as `"abc"` → `ValueError`, `pressure` as `float('nan')` →
`ValueError`; in both cases the record still resolves with `state = SOLID`),
but an integer-typed key carrying an infinite float makes `int(info_value)`
raise `OverflowError`, which `except (ValueError, TypeError,
AttributeError)` does not catch: at the failing input
`pressure=float('inf'), phase=solid` the whole record aborts instead of the
one bad key being dropped, contradicting the claim, the code's own comment
(`If conversion fails, skip this field`) and the spec's swallow policy. -/
theorem parse_xyz_header_overflow_aborts :
    parse_xyz_header [("pressure", PyVal.vinf false), ("phase", PyVal.vstr "solid")] =
      Except.error PyErr.overflowError ∧
    parse_xyz_header [("phase", PyVal.vstr "solid")] =
      Except.ok { state := some State.SOLID } ∧
    parse_xyz_header [("Lattice", PyVal.vstr "10.0"), ("phase", PyVal.vstr "solid")] =
      Except.ok { state := some State.SOLID } ∧
    parse_xyz_header [("pressure", PyVal.vstr "abc"), ("phase", PyVal.vstr "solid")] =
      Except.ok { state := some State.SOLID } ∧
    parse_xyz_header [("pressure", PyVal.vnan), ("phase", PyVal.vstr "solid")] =
      Except.ok { state := some State.SOLID } := by
  refine ⟨rfl, rfl, rfl, rfl, rfl⟩

/-! ## Claim C3 — `state` coercion is case-insensitive and total -/

/-- C3: `state` coercion depends only on the lowercased string:
`"SOLID"`, `"solid"`, `"Solid"` all map to `SOLID` (likewise the other
variants), every string whose lowercasing is outside
`{solid, liquid, ambiguous}` resolves to the absent state, and every
non-string value resolves to the absent state — the coercion is total and
never raises. -/
theorem state_coercion_case_insensitive_total (s₁ s₂ s : String) (n : Int) (q : Rat) :
    (pyLower s₁ = pyLower s₂ → coerceState (PyVal.vstr s₁) = coerceState (PyVal.vstr s₂)) ∧
    coerceState (PyVal.vstr "SOLID") = some State.SOLID ∧
    coerceState (PyVal.vstr "solid") = some State.SOLID ∧
    coerceState (PyVal.vstr "Solid") = some State.SOLID ∧
    coerceState (PyVal.vstr "LIQUID") = some State.LIQUID ∧
    coerceState (PyVal.vstr "liquid") = some State.LIQUID ∧
    coerceState (PyVal.vstr "Ambiguous") = some State.AMBIGUOUS ∧
    coerceState (PyVal.vstr "ambiguous") = some State.AMBIGUOUS ∧
    (pyLower s ≠ "solid" → pyLower s ≠ "liquid" → pyLower s ≠ "ambiguous" →
      coerceState (PyVal.vstr s) = none) ∧
    coerceState (PyVal.vint n) = none ∧
    coerceState (PyVal.vfloat q) = none ∧
    (∀ b, coerceState (PyVal.vinf b) = none) ∧
    coerceState PyVal.vnan = none ∧
    coerceState PyVal.vnone = none := by
  refine ⟨fun h => by simp [coerceState, h], by decide, by decide, by decide, by decide,
    by decide, by decide, by decide, fun h1 h2 h3 => by simp [coerceState, h1, h2, h3],
    rfl, rfl, fun b => rfl, rfl, rfl⟩

/-- Witness for C3: case-insensitivity applied at `"SOLID"`/`"Solid"`, and
totality applied at the out-of-vocabulary string `"molten"`. -/
theorem state_coercion_witness :
    coerceState (PyVal.vstr "SOLID") = coerceState (PyVal.vstr "Solid") ∧
    coerceState (PyVal.vstr "molten") = none := by
  constructor
  · exact (state_coercion_case_insensitive_total "SOLID" "Solid" "x" 0 0).1 (by decide)
  · have h := state_coercion_case_insensitive_total "x" "x" "molten" 0 0
    exact h.2.2.2.2.2.2.2.2.1 (by decide) (by decide) (by decide)

/-! ## The archive writer — `Configuration.save_to_hdf5` and friends -/

/-- A root-level scalar attribute value in the archive: typed
string / integer / float, as in §6 of the container contract. -/
inductive AttrVal where
  | aInt (n : Int)
  | aFloat (q : Rat)
  | aStr (s : String)
deriving DecidableEq, Repr

/-- The logical content of the HDF5 archive produced by `save_to_hdf5`:
the ordered root-level attributes and the ordered named byte-sequence
datasets (the binary container layout itself is delegated to h5py). -/
structure HDF5File where
  attrs : List (String × AttrVal)
  datasets : List (String × List UInt8)
deriving DecidableEq, Repr

/-- UTF-8 bytes of a file's text, modelling `content.encode('utf-8')`. -/
def utf8Bytes (s : String) : List UInt8 :=
  s.toUTF8.toList

/-- The declared fields of `ConfigurationMeta`, one constructor per field. -/
inductive MetaField where
  | config_number | uuid | pressure | temperature | state | rs
  | molecular_percentage | MD_type | method | code | modelname
  | simulation_type | timestep | config_gen_date | author | qmc_machine
  | QMC_run_date | QMC_quality | energy | electron_kinetic_energy
  | potential_energy | fsc_potential_energy | fsc_kinetic_energy
deriving DecidableEq, Repr

/-- The canonical attribute key of each field (its pydantic name). -/
def fieldName : MetaField → String
  | MetaField.config_number => "config_number"
  | MetaField.uuid => "uuid"
  | MetaField.pressure => "pressure"
  | MetaField.temperature => "temperature"
  | MetaField.state => "state"
  | MetaField.rs => "rs"
  | MetaField.molecular_percentage => "molecular_percentage"
  | MetaField.MD_type => "MD_type"
  | MetaField.method => "method"
  | MetaField.code => "code"
  | MetaField.modelname => "modelname"
  | MetaField.simulation_type => "simulation_type"
  | MetaField.timestep => "timestep"
  | MetaField.config_gen_date => "config_gen_date"
  | MetaField.author => "author"
  | MetaField.qmc_machine => "qmc_machine"
  | MetaField.QMC_run_date => "QMC_run_date"
  | MetaField.QMC_quality => "QMC_quality"
  | MetaField.energy => "energy"
  | MetaField.electron_kinetic_energy => "electron_kinetic_energy"
  | MetaField.potential_energy => "potential_energy"
  | MetaField.fsc_potential_energy => "fsc_potential_energy"
  | MetaField.fsc_kinetic_energy => "fsc_kinetic_energy"

/-- The attribute a field contributes under `hdf5_file.attrs[key] = value`:
`none` when the field is absent (the `if value is not None` guard), the
scalar otherwise, with a `State` written as its string tag
(`value.value`). -/
def fieldAttr (m : ConfigurationMeta) : MetaField → Option AttrVal
  | MetaField.config_number => m.config_number.map AttrVal.aInt
  | MetaField.uuid => m.uuid.map AttrVal.aStr
  | MetaField.pressure => m.pressure.map AttrVal.aInt
  | MetaField.temperature => m.temperature.map AttrVal.aInt
  | MetaField.state => m.state.map (fun st => AttrVal.aStr (stateValue st))
  | MetaField.rs => m.rs.map AttrVal.aFloat
  | MetaField.molecular_percentage => m.molecular_percentage.map AttrVal.aFloat
  | MetaField.MD_type => m.MD_type.map AttrVal.aStr
  | MetaField.method => m.method.map AttrVal.aStr
  | MetaField.code => m.code.map AttrVal.aStr
  | MetaField.modelname => m.modelname.map AttrVal.aStr
  | MetaField.simulation_type => m.simulation_type.map AttrVal.aStr
  | MetaField.timestep => m.timestep.map AttrVal.aInt
  | MetaField.config_gen_date => m.config_gen_date.map AttrVal.aStr
  | MetaField.author => m.author.map AttrVal.aStr
  | MetaField.qmc_machine => m.qmc_machine.map AttrVal.aStr
  | MetaField.QMC_run_date => m.QMC_run_date.map AttrVal.aStr
  | MetaField.QMC_quality => m.QMC_quality.map AttrVal.aInt
  | MetaField.energy => m.energy.map AttrVal.aFloat
  | MetaField.electron_kinetic_energy => m.electron_kinetic_energy.map AttrVal.aFloat
  | MetaField.potential_energy => m.potential_energy.map AttrVal.aFloat
  | MetaField.fsc_potential_energy => m.fsc_potential_energy.map AttrVal.aFloat
  | MetaField.fsc_kinetic_energy => m.fsc_kinetic_energy.map AttrVal.aFloat

/-- The fields in `ConfigurationMeta` declaration order — the iteration
order of `self.meta.model_dump().items()`. -/
def fieldTable : List MetaField :=
  [MetaField.config_number, MetaField.uuid, MetaField.pressure,
   MetaField.temperature, MetaField.state, MetaField.rs,
   MetaField.molecular_percentage, MetaField.MD_type, MetaField.method,
   MetaField.code, MetaField.modelname, MetaField.simulation_type,
   MetaField.timestep, MetaField.config_gen_date, MetaField.author,
   MetaField.qmc_machine, MetaField.QMC_run_date, MetaField.QMC_quality,
   MetaField.energy, MetaField.electron_kinetic_energy,
   MetaField.potential_energy, MetaField.fsc_potential_energy,
   MetaField.fsc_kinetic_energy]

/-- The attribute entries a present field contributes; an absent field
contributes none. -/
def optAttr (name : String) (v : Option AttrVal) : List (String × AttrVal) :=
  match v with
  | some a => [(name, a)]
  | none => []

/-- The `for key, value in meta_dict.items(): if value is not None:
hdf5_file.attrs[key] = value` loop of `save_to_hdf5`: every non-absent
field, in declaration order, written under its canonical name. -/
def metaAttrs (m : ConfigurationMeta) : List (String × AttrVal) :=
  fieldTable.foldr (fun f acc => optAttr (fieldName f) (fieldAttr m f) ++ acc) []

/-- An optional companion dataset entry: a found companion contributes one
entry with its text's bytes, a missing companion contributes no entry. -/
def optDataset (name : String) (content : Option String) : List (String × List UInt8) :=
  match content with
  | some text => [(name, utf8Bytes text)]
  | none => []

/-- Embedding of `Configuration.save_to_hdf5`: the archive holds every
non-absent metadata field as a root-level attribute, the raw text of the
primary XYZ file under `xyz_data`, and one entry per found companion under
`sofk_data` / `gofr_data` / `electronic_sk_data`, in that write order.
`sofk`, `gofr` and `sk` are the texts of the discovered companions
(`none` when `_find_related_file` found nothing). -/
def save_to_hdf5 (m : ConfigurationMeta) (xyzText : String)
    (sofk gofr sk : Option String) : HDF5File where
  attrs := metaAttrs m
  datasets :=
    [("xyz_data", utf8Bytes xyzText)] ++ optDataset "sofk_data" sofk ++
      optDataset "gofr_data" gofr ++ optDataset "electronic_sk_data" sk

/-- Embedding of `Configuration.read_hdf5_attributes`: `dict(h5f.attrs)` —
all root-level attributes of the archive. -/
def read_hdf5_attributes (f : HDF5File) : List (String × AttrVal) :=
  f.attrs

/-- Python `f"{opt}"` on an `Optional[int]` field: `None` prints as
`"None"`. -/
def pyOptIntStr : Option Int → String
  | some n => toString n
  | none => "None"

/-- Embedding of the `Configuration.hdf5_filename` property. -/
def hdf5_filename (m : ConfigurationMeta) : String :=
  "P" ++ pyOptIntStr m.pressure ++ "T" ++ pyOptIntStr m.temperature ++
    "_config_" ++ pyOptIntStr m.config_number ++ ".hdf5"

/-- Embedding of the `Configuration.s3_key` property. -/
def s3_key (m : ConfigurationMeta) : String :=
  "P" ++ pyOptIntStr m.pressure ++ "/T" ++ pyOptIntStr m.temperature ++ "/" ++
    hdf5_filename m

/-! Dictionary lookup over the generated attribute list. -/

theorem lookup_optAttr_ne (n name : String) (hne : n ≠ name) (v : Option AttrVal)
    (rest : List (String × AttrVal)) :
    (optAttr name v ++ rest).lookup n = rest.lookup n := by
  have hb : (n == name) = false := beq_eq_false_iff_ne.mpr hne
  cases v with
  | none => rfl
  | some a => simp [optAttr, List.lookup, hb]

theorem lookup_foldr_attrs_none (m : ConfigurationMeta) (fs : List MetaField) (n : String)
    (hn : ∀ g ∈ fs, fieldName g ≠ n) :
    (fs.foldr (fun g acc => optAttr (fieldName g) (fieldAttr m g) ++ acc) []).lookup n
      = none := by
  induction fs with
  | nil => rfl
  | cons g rest ih =>
    rw [List.foldr_cons,
      lookup_optAttr_ne n (fieldName g) (fun h => (hn g (List.mem_cons_self g rest)) h.symm)]
    exact ih (fun g' hg' => hn g' (List.mem_cons_of_mem g hg'))

theorem lookup_foldr_attrs (m : ConfigurationMeta) (fs : List MetaField) (f : MetaField)
    (hmem : f ∈ fs) (hnd : (fs.map fieldName).Nodup) :
    (fs.foldr (fun g acc => optAttr (fieldName g) (fieldAttr m g) ++ acc) []).lookup
      (fieldName f) = fieldAttr m f := by
  induction fs with
  | nil => cases hmem
  | cons g rest ih =>
    rw [List.map_cons, List.nodup_cons] at hnd
    rw [List.foldr_cons]
    rcases List.mem_cons.mp hmem with heq | hmem'
    · subst heq
      cases hv : fieldAttr m f with
      | some a => simp [optAttr, List.lookup]
      | none =>
        simp only [optAttr, List.nil_append]
        apply lookup_foldr_attrs_none
        intro g' hg' hEq
        exact hnd.1 (hEq ▸ List.mem_map_of_mem fieldName hg')
    · have hgne : fieldName f ≠ fieldName g := by
        intro hEq
        exact hnd.1 (hEq ▸ List.mem_map_of_mem fieldName hmem')
      rw [lookup_optAttr_ne (fieldName f) (fieldName g) hgne]
      exact ih hmem' hnd.2

theorem lookup_metaAttrs (m : ConfigurationMeta) (f : MetaField) :
    (metaAttrs m).lookup (fieldName f) = fieldAttr m f := by
  have hnd : (fieldTable.map fieldName).Nodup := by decide
  have hmem : f ∈ fieldTable := by cases f <;> decide
  exact lookup_foldr_attrs m fieldTable f hmem hnd

/-! ## Claim C4 — what `save_to_hdf5` writes -/

/-- C4: the archive holds, for every field, exactly the field's attribute
under its canonical name — a non-absent field contributes its scalar, an
absent field contributes no attribute — the `state` enumeration is written
as its string tag, and the raw text of the primary file is the one
byte-sequence entry keyed `xyz_data`. -/
theorem save_to_hdf5_writes_attrs (m : ConfigurationMeta) (xyzText : String)
    (sofk gofr sk : Option String) (f : MetaField) :
    ((save_to_hdf5 m xyzText sofk gofr sk).attrs.lookup (fieldName f) = fieldAttr m f) ∧
    (∀ st, m.state = some st →
      (save_to_hdf5 m xyzText sofk gofr sk).attrs.lookup "state" =
        some (AttrVal.aStr (stateValue st))) ∧
    ((save_to_hdf5 m xyzText sofk gofr sk).datasets.lookup "xyz_data" =
      some (utf8Bytes xyzText)) := by
  refine ⟨lookup_metaAttrs m f, ?_, ?_⟩
  · intro st hst
    have h := lookup_metaAttrs m MetaField.state
    rw [show fieldName MetaField.state = "state" from rfl] at h
    rw [show (save_to_hdf5 m xyzText sofk gofr sk).attrs = metaAttrs m from rfl, h]
    simp [fieldAttr, hst]
  · simp [save_to_hdf5, List.lookup]

/-- Concrete record used by the C4 witness. -/
def metaC4 : ConfigurationMeta :=
  { pressure := some 150, temperature := some 2000, state := some State.SOLID }

/-- Witness for C4: a record with `state = SOLID` is archived with the
string-tag attribute `state = "solid"`. -/
theorem save_to_hdf5_writes_attrs_witness :
    (save_to_hdf5 metaC4 "raw text" none none none).attrs.lookup "state" =
      some (AttrVal.aStr "solid") :=
  (save_to_hdf5_writes_attrs metaC4 "raw text" none none none MetaField.state).2.1
    State.SOLID rfl

/-! ## Claim C6 — a missing companion contributes no entry and no error -/

/-- C6: `save_to_hdf5` is total (resolution and writing raise nothing), and
when a companion was not found the archive simply has no entry under the
corresponding key — no `sofk_data` for a missing `_sofk.txt` sibling,
likewise `gofr_data` and `electronic_sk_data`. -/
theorem save_to_hdf5_missing_companion (m : ConfigurationMeta) (xyzText : String)
    (sofk gofr sk : Option String) :
    ((save_to_hdf5 m xyzText none gofr sk).datasets.lookup "sofk_data" = none) ∧
    ((save_to_hdf5 m xyzText sofk none sk).datasets.lookup "gofr_data" = none) ∧
    ((save_to_hdf5 m xyzText sofk gofr none).datasets.lookup "electronic_sk_data" = none) := by
  refine ⟨?_, ?_, ?_⟩
  · cases gofr <;> cases sk <;> simp [save_to_hdf5, optDataset, List.lookup]
  · cases sofk <;> cases sk <;> simp [save_to_hdf5, optDataset, List.lookup]
  · cases sofk <;> cases gofr <;> simp [save_to_hdf5, optDataset, List.lookup]

/-! ## Claim C7 — archive filename and remote key -/

/-- C7: when pressure, temperature and config number are present, the
archive's default filename is `P<pressure>T<temperature>_config_<config_number>.hdf5`
and its remote key is `P<pressure>/T<temperature>/<archive filename>`; both
are functions of those three fields alone (any record agreeing on them gets
the same names), with no dependence on anything written or on write
order. -/
theorem archive_naming_convention (m m' : ConfigurationMeta) (p t c : Int)
    (hp : m.pressure = some p) (ht : m.temperature = some t)
    (hc : m.config_number = some c) :
    hdf5_filename m =
      "P" ++ toString p ++ "T" ++ toString t ++ "_config_" ++ toString c ++ ".hdf5" ∧
    s3_key m = "P" ++ toString p ++ "/T" ++ toString t ++ "/" ++ hdf5_filename m ∧
    (m'.pressure = m.pressure → m'.temperature = m.temperature →
      m'.config_number = m.config_number →
      hdf5_filename m' = hdf5_filename m ∧ s3_key m' = s3_key m) := by
  refine ⟨?_, ?_, ?_⟩
  · simp [hdf5_filename, pyOptIntStr, hp, ht, hc]
  · simp [s3_key, pyOptIntStr, hp, ht]
  · intro h1 h2 h3
    constructor
    · simp [hdf5_filename, pyOptIntStr, h1, h2, h3]
    · simp [s3_key, hdf5_filename, pyOptIntStr, h1, h2, h3]

/-- Concrete record used by the C7 witness. -/
def metaC7 : ConfigurationMeta :=
  { pressure := some 150, temperature := some 2000, config_number := some 60 }

/-- Witness for C7 at pressure 150, temperature 2000, config number 60. -/
theorem archive_naming_convention_witness :
    hdf5_filename metaC7 = "P150T2000_config_60.hdf5" ∧
    s3_key metaC7 = "P150/T2000/P150T2000_config_60.hdf5" := by
  have h := archive_naming_convention metaC7 metaC7 150 2000 60 rfl rfl rfl
  constructor
  · exact h.1.trans (by decide)
  · rw [h.2.1, h.1]
    decide

/-! ## Claim C8 — write/read attribute round-trip -/

/-- C8: reading back the attributes of an archive written from `m`
reproduces, for every field, exactly the attribute encoding `m`'s value and
type (enumeration fields through their string tag), and that encoding is
lossless: two records with the same read-back attributes are equal. -/
theorem attrs_roundtrip (m m' : ConfigurationMeta) (xyzText : String)
    (sofk gofr sk : Option String) :
    (∀ f, (read_hdf5_attributes (save_to_hdf5 m xyzText sofk gofr sk)).lookup (fieldName f)
        = fieldAttr m f) ∧
    ((∀ f, fieldAttr m f = fieldAttr m' f) → m = m') := by
  constructor
  · intro f
    exact lookup_metaAttrs m f
  · intro h
    have hInt : Function.Injective AttrVal.aInt := fun a b hab => AttrVal.aInt.inj hab
    have hFl : Function.Injective AttrVal.aFloat := fun a b hab => AttrVal.aFloat.inj hab
    have hStr : Function.Injective AttrVal.aStr := fun a b hab => AttrVal.aStr.inj hab
    have hSt : Function.Injective (fun st => AttrVal.aStr (stateValue st)) := by
      intro a b hab
      have hv := AttrVal.aStr.inj hab
      cases a <;> cases b <;> first | rfl | exact absurd hv (by decide)
    cases m
    cases m'
    congr 1
    · exact Option.map_injective hInt (h MetaField.config_number)
    · exact Option.map_injective hStr (h MetaField.uuid)
    · exact Option.map_injective hInt (h MetaField.pressure)
    · exact Option.map_injective hInt (h MetaField.temperature)
    · exact Option.map_injective hSt (h MetaField.state)
    · exact Option.map_injective hFl (h MetaField.rs)
    · exact Option.map_injective hFl (h MetaField.molecular_percentage)
    · exact Option.map_injective hStr (h MetaField.MD_type)
    · exact Option.map_injective hStr (h MetaField.method)
    · exact Option.map_injective hStr (h MetaField.code)
    · exact Option.map_injective hStr (h MetaField.modelname)
    · exact Option.map_injective hStr (h MetaField.simulation_type)
    · exact Option.map_injective hInt (h MetaField.timestep)
    · exact Option.map_injective hStr (h MetaField.config_gen_date)
    · exact Option.map_injective hStr (h MetaField.author)
    · exact Option.map_injective hStr (h MetaField.qmc_machine)
    · exact Option.map_injective hStr (h MetaField.QMC_run_date)
    · exact Option.map_injective hInt (h MetaField.QMC_quality)
    · exact Option.map_injective hFl (h MetaField.energy)
    · exact Option.map_injective hFl (h MetaField.electron_kinetic_energy)
    · exact Option.map_injective hFl (h MetaField.potential_energy)
    · exact Option.map_injective hFl (h MetaField.fsc_potential_energy)
    · exact Option.map_injective hFl (h MetaField.fsc_kinetic_energy)

/-- Concrete record used by the C8 witness. -/
def metaC8 : ConfigurationMeta :=
  { pressure := some 140, temperature := some 2400, state := some State.LIQUID,
    rs := some (3 / 2 : Rat), modelname := some "M18" }

/-- Witness for C8: the written archive reads back the `pressure` attribute
of the record exactly, and the encoding is injective at the record. -/
theorem attrs_roundtrip_witness :
    (read_hdf5_attributes (save_to_hdf5 metaC8 "raw" none none none)).lookup "pressure" =
      some (AttrVal.aInt 140) ∧ metaC8 = metaC8 := by
  have h := attrs_roundtrip metaC8 metaC8 "raw" none none none
  exact ⟨h.1 MetaField.pressure, h.2 (fun f => rfl)⟩

/-! ## Sibling-file discovery — `Configuration._find_related_file` -/

/-- Index of the last `'.'` in a character list, if any (CPython's
`name.rfind('.')` written over the list model). -/
def rfindDot : List Char → Option Nat
  | [] => none
  | c :: rest =>
    match rfindDot rest with
    | some i => some (i + 1)
    | none => if c = '.' then some 0 else none

/-- Model of `pathlib.PurePath.stem` on a file name: the name with its last
dot-suffix removed, where a suffix only counts when the last dot is neither
the first nor the last character. -/
def pyStem (name : List Char) : List Char :=
  match rfindDot name with
  | some i => if 0 < i ∧ i < name.length - 1 then name.take i else name
  | none => name

/-- The candidate filename computed by `Configuration._find_related_file`:
`f"{xyz_stem}.sk"` for the `.sk` suffix, `f"{xyz_stem}{suffix}"` otherwise —
both built from `self.xyz_path.stem`, the name with its extension already
stripped. -/
def findRelatedName (xyzName : List Char) (suffix : List Char) : List Char :=
  if suffix = ".sk".toList then pyStem xyzName ++ ".sk".toList
  else pyStem xyzName ++ suffix

/-- Embedding of `Configuration._find_related_file`: the candidate is looked
up among the sibling filenames of the primary file's directory
(`file_path.exists()`); found paths are returned, otherwise `None`. -/
def find_related_file (dirListing : List (List Char)) (xyzName suffix : List Char) :
    Option (List Char) :=
  let candidate := findRelatedName xyzName suffix
  if candidate ∈ dirListing then some candidate else none

theorem rfindDot_eq_none (ys : List Char) (h : ('.' : Char) ∉ ys) : rfindDot ys = none := by
  induction ys with
  | nil => rfl
  | cons c rest ih =>
    have hc : ¬(c = '.') := fun hh => h (hh ▸ List.mem_cons_self c rest)
    unfold rfindDot
    rw [ih (fun hm => h (List.mem_cons_of_mem c hm))]
    simp [hc]

theorem rfindDot_append_dot (xs ys : List Char) (h : ('.' : Char) ∉ ys) :
    rfindDot (xs ++ '.' :: ys) = some xs.length := by
  induction xs with
  | nil =>
    rw [List.nil_append]
    unfold rfindDot
    rw [rfindDot_eq_none ys h]
    simp
  | cons c rest ih =>
    rw [List.cons_append]
    unfold rfindDot
    rw [ih]
    simp

theorem pyStem_append_ext (base ext : List Char) (hb : base ≠ []) (he : ext ≠ [])
    (hdot : ('.' : Char) ∉ ext) : pyStem (base ++ '.' :: ext) = base := by
  unfold pyStem
  rw [rfindDot_append_dot base ext hdot]
  have hbl : 0 < base.length := List.length_pos.mpr hb
  have hel : 0 < ext.length := List.length_pos.mpr he
  have hcond : 0 < base.length ∧ base.length < (base ++ '.' :: ext).length - 1 := by
    constructor
    · exact hbl
    · simp only [List.length_append, List.length_cons]
      omega
  show (if 0 < base.length ∧ base.length < (base ++ '.' :: ext).length - 1 then
      (base ++ '.' :: ext).take base.length else base ++ '.' :: ext) = base
  rw [if_pos hcond]
  exact List.take_left base ('.' :: ext)

/-! ## Claim C5 — companion filenames -/

/-- C5 counterexample: for the primary file `P150T2000_config_60.xyz`, the
structure-factor companion computed by `_find_related_file` is
`P150T2000_config_60_sofk.txt` — the suffix is appended to the stem, i.e.
after the extension is stripped — and not the claim's
`P150T2000_config_60.xyz_sofk.txt` (suffix appended before any extension
stripping). -/
theorem find_related_file_appends_to_stem_counterexample :
    findRelatedName "P150T2000_config_60.xyz".toList "_sofk.txt".toList =
      "P150T2000_config_60_sofk.txt".toList ∧
    findRelatedName "P150T2000_config_60.xyz".toList "_sofk.txt".toList ≠
      "P150T2000_config_60.xyz_sofk.txt".toList := by
  constructor
  · decide
  · decide

/-- C5 amended: for every primary filename `base.ext` (nonempty base,
nonempty dot-free extension), the electronic-structure companion is
`base.sk` (extension replaced by `.sk`) and the structure-factor and
pair-correlation companions are `base_sofk.txt` and `base_gofr.txt` — the
suffixes are appended after the extension is stripped — and a found
companion always lies in the primary file's own directory listing. -/
theorem find_related_file_amended (base ext : List Char) (dirListing : List (List Char))
    (hb : base ≠ []) (he : ext ≠ []) (hdot : ('.' : Char) ∉ ext) :
    findRelatedName (base ++ '.' :: ext) ".sk".toList = base ++ ".sk".toList ∧
    findRelatedName (base ++ '.' :: ext) "_sofk.txt".toList = base ++ "_sofk.txt".toList ∧
    findRelatedName (base ++ '.' :: ext) "_gofr.txt".toList = base ++ "_gofr.txt".toList ∧
    (∀ p, find_related_file dirListing (base ++ '.' :: ext) "_sofk.txt".toList = some p →
      p = base ++ "_sofk.txt".toList ∧ p ∈ dirListing) := by
  have hstem := pyStem_append_ext base ext hb he hdot
  refine ⟨?_, ?_, ?_, ?_⟩
  · rw [findRelatedName, if_pos rfl, hstem]
  · rw [findRelatedName, if_neg (by decide), hstem]
  · rw [findRelatedName, if_neg (by decide), hstem]
  · intro p hp
    rw [find_related_file] at hp
    by_cases hmem : findRelatedName (base ++ '.' :: ext) "_sofk.txt".toList ∈ dirListing
    · rw [if_pos hmem] at hp
      have hpe : p = findRelatedName (base ++ '.' :: ext) "_sofk.txt".toList :=
        (Option.some.inj hp).symm
      constructor
      · rw [hpe, findRelatedName, if_neg (by decide), hstem]
      · rw [hpe]
        exact hmem
    · rw [if_neg hmem] at hp
      exact absurd hp (by simp)

/-- Witness for C5 (amended) at the primary file `P150T2000_config_60.xyz`. -/
theorem find_related_file_amended_witness :
    findRelatedName ("P150T2000_config_60".toList ++ '.' :: "xyz".toList) ".sk".toList =
      "P150T2000_config_60".toList ++ ".sk".toList ∧
    findRelatedName ("P150T2000_config_60".toList ++ '.' :: "xyz".toList) "_sofk.txt".toList =
      "P150T2000_config_60".toList ++ "_sofk.txt".toList ∧
    findRelatedName ("P150T2000_config_60".toList ++ '.' :: "xyz".toList) "_gofr.txt".toList =
      "P150T2000_config_60".toList ++ "_gofr.txt".toList := by
  have h := find_related_file_amended "P150T2000_config_60".toList "xyz".toList []
    (by decide) (by decide) (by decide)
  exact ⟨h.1, h.2.1, h.2.2.1⟩
